import Mathlib

/-!
# Verification of the FEN / board core of the chess engine (`src/game.rs`)

This file gives a shallow embedding of `src/game.rs` into Lean and proves
the claims of the specification against it.

Conventions of the embedding:
* Rust strings (`&str`, `String`) are `List Char`; where the source reads the
  raw UTF-8 bytes (`str::len`, `str::as_bytes` in `position_to_bit`) we encode
  the characters to bytes with `strBytes`.
* `u64` values are `Nat`; the only shift the source performs is
  `(1 as u64) << p`, embedded as `2 ^ (p % 64)` (release-mode semantics of a
  shift whose amount is reduced mod the bit width; in every reachable case of
  this development `p < 64`, where the two readings agree).
* `usize` values are `Nat`; `str::parse::<usize>()` is `parseUsize`, which
  rejects values above `2 ^ 64 - 1` the way a 64-bit `usize` parse does.
* A Rust `panic!` is a program-terminating fault.  It is embedded as the
  `Except.error` branch of an `Except Panic` result, the `Panic` value
  recording which panic site fired and with what payload.
-/

set_option maxRecDepth 4000

namespace Chess

/-- Rust `char::is_ascii_uppercase`. -/
def isAsciiUpper (c : Char) : Bool := 65 ≤ c.toNat && c.toNat ≤ 90

/-- Rust `char::to_ascii_lowercase`: shift ASCII `A`..`Z` down by 32, leave
every other character unchanged. -/
def toAsciiLower (c : Char) : Char :=
  if isAsciiUpper c then Char.ofNat (c.toNat + 32) else c

/-- Rust `char::to_digit(10)`: `Some` exactly on ASCII `0`..`9`. -/
def toDigit10 (c : Char) : Option Nat :=
  if 48 ≤ c.toNat && c.toNat ≤ 57 then some (c.toNat - 48) else none

/-- The UTF-8 encoding of one character, as the list of its byte values.
Mirrors how Rust's `str` stores text, which `position_to_bit` observes
through `str::len` and `str::as_bytes`. -/
def utf8Bytes (c : Char) : List Nat :=
  let v := c.toNat
  if v < 128 then [v]
  else if v < 2048 then [192 + v / 64, 128 + v % 64]
  else if v < 65536 then [224 + v / 4096, 128 + v / 64 % 64, 128 + v % 64]
  else [240 + v / 262144, 128 + v / 4096 % 64, 128 + v / 64 % 64, 128 + v % 64]

/-- The UTF-8 bytes of a string (`str::as_bytes`). -/
def strBytes (s : List Char) : List Nat := (s.map utf8Bytes).flatten

/-- Rust `(byte as char).to_digit(10)` for a byte value: a byte is a decimal
digit exactly when it is in `48..=57` (the Latin-1 reading of a byte never
introduces new digits). -/
def byteToDigit10 (b : Nat) : Option Nat :=
  if 48 ≤ b && b ≤ 57 then some (b - 48) else none

/-- `enum Color` of `src/game.rs`. -/
inductive Color
  | White
  | Black
deriving DecidableEq, Repr

/-- `enum PieceType` of `src/game.rs`. -/
inductive PieceType
  | Pawn
  | Rook
  | Knight
  | Bishop
  | Queen
  | King
deriving DecidableEq, Repr

/-- `struct Piece` of `src/game.rs`; `position` is the `u64` single-bit
bitboard. -/
structure Piece where
  position : Nat
  color : Color
  piece_type : PieceType
deriving DecidableEq, Repr

/-- `enum Square` of `src/game.rs`: empty, or occupied by the piece at the
given index of the game's piece list. -/
inductive Square
  | Empty
  | Occupied (idx : Nat)
deriving DecidableEq, Repr

/-- `CastlingRights::WHITEKINGSIDE` (bitflags, `1 << 0`). -/
def WHITEKINGSIDE : Nat := 1

/-- `CastlingRights::WHITEQUEENSIDE` (bitflags, `1 << 1`). -/
def WHITEQUEENSIDE : Nat := 2

/-- `CastlingRights::BLACKKINGSIDE` (bitflags, `1 << 2`). -/
def BLACKKINGSIDE : Nat := 4

/-- `CastlingRights::BLACKQUEENSIDE` (bitflags, `1 << 3`). -/
def BLACKQUEENSIDE : Nat := 8

/-- `CastlingRights::ALL`. -/
def CASTLE_ALL : Nat := 15

/-- `CastlingRights::NONE`. -/
def CASTLE_NONE : Nat := 0

/-- The error `String`s returned by `position_to_bit`, abstracted to their
three kinds together with the data the source interpolates into the message
(`err` carries the offending byte for the column/row cases, and the whole
input string). -/
inductive PtbError
  | invalidLength (len : Nat) (s : List Char)
  | invalidColumn (b : Nat) (s : List Char)
  | invalidRow (b : Nat) (s : List Char)
deriving DecidableEq, Repr

/-- The `panic!` sites of `read_FEN` / `parse_row`, with the data each
interpolates into its message.  A `Panic` is a program-terminating fault in
the source, not a returned value.  (The halfmove and fullmove sites share the
literal message text `"Invalid halfmove: …"` in the source — the fullmove arm
reuses the copy-pasted string — but they are distinct panic sites.) -/
inductive Panic
  | invalidPieceChar (c : Char)
  | unknownColor (tok : List Char)
  | invalidCastlingChar (c : Char)
  | enPassantInvalid (e : PtbError)
  | invalidHalfmove (tok : List Char)
  | invalidFullmove (tok : List Char)
deriving DecidableEq, Repr

/-- `struct Game` of `src/game.rs`.  `castling_rights` is the `u8` bitflags
value. -/
structure Game where
  pieces : List Piece
  squares : List Square
  active_color : Color
  castling_rights : Nat
  en_passant : Option Nat
  halfmove_clock : Nat
  fullmove_number : Nat
deriving DecidableEq, Repr

/-- Fuelled helper for `bit_scan`: index of the lowest set bit, for values
that fit in the given number of bits. -/
def bitScanAux : Nat → Nat → Nat
  | 0, _ => 0
  | fuel + 1, bit => if bit % 2 = 1 then 0 else bitScanAux fuel (bit / 2) + 1

/-- Modelled from the spec: `bit_scan` lives in `src/utils.rs`, which is not
among the sources; §4.2 of the spec defines it as returning "the position of
the lowest (or only) set bit" of a nonzero 64-bit value, so we take the
lowest-set-bit index of a `u64` (64 bits of fuel suffice for any `u64`). -/
def bit_scan (bit : Nat) : Nat := bitScanAux 64 bit

/-- `static COL_MAP` of `src/game.rs`. -/
def COL_MAP : List Char := ['a', 'b', 'c', 'd', 'e', 'f', 'g', 'h']

/-- `index_to_position` of `src/game.rs`: column letter from `COL_MAP`,
then the decimal rendering of `index / 8 + 1`. -/
def index_to_position (index : Nat) : List Char :=
  COL_MAP.get ⟨index % 8, Nat.mod_lt index (by decide)⟩ :: (Nat.repr (index / 8 + 1)).data

/-- `bit_to_position` of `src/game.rs`. -/
def bit_to_position (bit : Nat) : Except (List Char) (List Char) :=
  if bit = 0 then Except.error ("No piece present!".data)
  else Except.ok (index_to_position (bit_scan bit))

/-- `position_to_bit` of `src/game.rs`.  The source checks `position.len()`
(the UTF-8 byte length) and then reads `as_bytes()[0]` and `as_bytes()[1]`;
the embedding therefore works on `strBytes position`. -/
def position_to_bit (position : List Char) : Except PtbError Nat :=
  match strBytes position with
  | [byte0, byte1] =>
    if byte0 < 97 || 97 + 8 ≤ byte0 then Except.error (PtbError.invalidColumn byte0 position)
    else
      match byteToDigit10 byte1 with
      | some number =>
        if number < 1 || 8 < number then Except.error (PtbError.invalidRow byte1 position)
        else Except.ok (2 ^ ((number - 1) * 8 + (byte0 - 97)))
      | none => Except.error (PtbError.invalidRow byte1 position)
  | bs => Except.error (PtbError.invalidLength bs.length position)

/-- Split a string at the first occurrence of `c`: `some (before, after)`
with the delimiter dropped, or `none` when `c` does not occur. -/
def splitFirst (s : List Char) (c : Char) : Option (List Char × List Char) :=
  match s with
  | [] => none
  | x :: xs =>
    if x = c then some ([], xs)
    else
      match splitFirst xs c with
      | none => none
      | some (pre, post) => some (x :: pre, post)

/-- Modelled from the spec: `split_on` lives in `src/utils.rs`, which is not
among the sources.  §4.4 describes the decoder as consuming the six FEN
fields "strictly left to right via space-delimited splitting", so `split_on`
returns the part before the first occurrence of the delimiter and the part
after it; when the delimiter is absent (the spec leaves this open) the whole
string is the first component and the second is empty. -/
def split_on (s : List Char) (c : Char) : List Char × List Char :=
  match splitFirst s c with
  | none => (s, [])
  | some p => p

/-- Rust `str::splitn(n, pat)`: at most `n` pieces, the last piece keeping
the unsplit remainder. -/
def splitn (n : Nat) (c : Char) (s : List Char) : List (List Char) :=
  match n with
  | 0 => []
  | 1 => [s]
  | m + 2 =>
    match splitFirst s c with
    | none => [s]
    | some (pre, post) => pre :: splitn (m + 1) c post

/-- `usize::MAX` on a 64-bit target. -/
def USIZE_MAX : Nat := 18446744073709551615

/-- Value of a nonempty all-digit string (`none` otherwise). -/
def digitsVal (s : List Char) : Option Nat :=
  if s = [] then none
  else
    s.foldl
      (fun acc c =>
        match acc, toDigit10 c with
        | some a, some d => some (a * 10 + d)
        | _, _ => none)
      (some 0)

/-- Rust `str::parse::<usize>()`: an optional leading `+`, then one or more
decimal digits, rejecting values that overflow a 64-bit `usize`. -/
def parseUsize (s : List Char) : Option Nat :=
  let digits :=
    match s with
    | '+' :: rest => rest
    | _ => s
  match digitsVal digits with
  | none => none
  | some v => if v ≤ USIZE_MAX then some v else none

/-- The piece letters of `parse_row`'s `match` (already lowercased by the
caller): `r`, `n`, `b`, `q`, `k`, `p`. -/
def pieceTypeOfChar (c : Char) : Option PieceType :=
  if c = 'r' then some PieceType.Rook
  else if c = 'n' then some PieceType.Knight
  else if c = 'b' then some PieceType.Bishop
  else if c = 'q' then some PieceType.Queen
  else if c = 'k' then some PieceType.King
  else if c = 'p' then some PieceType.Pawn
  else none

/-- The loop of `parse_row` of `src/game.rs`.  `pieces` is the `Vec` built by
`pieces.push(…)` (so new pieces are appended at the back) and `squares` is
the `VecDeque` built by `squares.push_front(…)` (so new squares are consed at
the front); a digit pushes that many `Empty` squares and advances
`piece_position` without creating pieces.  The `panic!("Invalid input: …")`
carries the lowercased character, as in the source. -/
def parseRowAux : List Char → Nat → Nat → List Piece → List Square →
    Except Panic (List Piece × List Square)
  | [], _, _, pieces, squares => Except.ok (pieces, squares)
  | ch :: rest, pieceIndex, piecePosition, pieces, squares =>
    let lc := toAsciiLower ch
    let color := if isAsciiUpper ch then Color.White else Color.Black
    match pieceTypeOfChar lc with
    | some pt =>
      parseRowAux rest (pieceIndex + 1) (piecePosition + 1)
        (pieces ++ [{ position := 2 ^ (piecePosition % 64), color := color, piece_type := pt }])
        (Square.Occupied pieceIndex :: squares)
    | none =>
      match toDigit10 lc with
      | some number =>
        parseRowAux rest pieceIndex (piecePosition + number) pieces
          (List.replicate number Square.Empty ++ squares)
      | none => Except.error (Panic.invalidPieceChar lc)

/-- `parse_row` of `src/game.rs`: starts from empty `pieces` / `squares`
accumulators. -/
def parse_row (row : List Char) (piece_index piece_position : Nat) :
    Except Panic (List Piece × List Square) :=
  parseRowAux row piece_index piece_position [] []

/-- The piece-placement loop of `read_FEN`: for each row, decrement
`piece_position` by 8, run `parse_row`, append its pieces to `game.pieces`
(advancing `piece_index` once per piece), and `push_front` each of its
squares in turn onto the global deque (hence `sqs.reverse ++ deque`). -/
def readFENRows : List (List Char) → Nat → Nat → List Piece → List Square →
    Except Panic (List Piece × List Square)
  | [], _, _, pieces, deque => Except.ok (pieces, deque)
  | row :: rows, pieceIndex, piecePosition, pieces, deque =>
    let pp := piecePosition - 8
    match parse_row row pieceIndex pp with
    | Except.error p => Except.error p
    | Except.ok (ps, sqs) =>
      readFENRows rows (pieceIndex + ps.length) pp (pieces ++ ps) (sqs.reverse ++ deque)

/-- The active-color `match` of `read_FEN`: `"w"`, `"b"`, or the
`panic!("Unknown color designator: …")`. -/
def parseColor (tok : List Char) : Except Panic Color :=
  if tok = ['w'] then Except.ok Color.White
  else if tok = ['b'] then Except.ok Color.Black
  else Except.error (Panic.unknownColor tok)

/-- The castling-rights loop of `read_FEN`: fold the characters over the
accumulated bitflags, `|=`-ing the matching right, skipping `-`, and
panicking on anything else. -/
def parseCastlingChars : List Char → Nat → Except Panic Nat
  | [], acc => Except.ok acc
  | ch :: rest, acc =>
    if ch = 'K' then parseCastlingChars rest (acc ||| WHITEKINGSIDE)
    else if ch = 'Q' then parseCastlingChars rest (acc ||| WHITEQUEENSIDE)
    else if ch = 'k' then parseCastlingChars rest (acc ||| BLACKKINGSIDE)
    else if ch = 'q' then parseCastlingChars rest (acc ||| BLACKQUEENSIDE)
    else if ch = '-' then parseCastlingChars rest acc
    else Except.error (Panic.invalidCastlingChar ch)

/-- The en-passant `match` of `read_FEN`: `"-"` is `None`, anything else goes
through `position_to_bit`, whose `Err` is turned into a `panic!`. -/
def parseEnPassant (tok : List Char) : Except Panic (Option Nat) :=
  if tok = ['-'] then Except.ok none
  else
    match position_to_bit tok with
    | Except.error e => Except.error (Panic.enPassantInvalid e)
    | Except.ok bit => Except.ok (some bit)

/-- The halfmove-clock `match` of `read_FEN`: `parse()` or
`panic!("Invalid halfmove: …")`. -/
def parseHalfmove (tok : List Char) : Except Panic Nat :=
  match parseUsize tok with
  | some n => Except.ok n
  | none => Except.error (Panic.invalidHalfmove tok)

/-- The fullmove-number `match` of `read_FEN`: `parse()` or a `panic!` (whose
message text in the source also reads `"Invalid halfmove: …"`). -/
def parseFullmove (tok : List Char) : Except Panic Nat :=
  match parseUsize tok with
  | some n => Except.ok n
  | none => Except.error (Panic.invalidFullmove tok)

/-- `Game::read_FEN` of `src/game.rs`.  The source splits the input on
spaces, parses the placement with `splitn(8, '/')` starting from
`piece_position = 64` and `piece_index = 0`, then parses the five remaining
fields in order, panicking on the first invalid one; every field of the
returned `Game` is assigned before the function returns, so sequencing the
stages with `Except.bind` is an exact rendering. -/
def read_FEN (fen : List Char) : Except Panic Game :=
  let s1 := split_on fen ' '
  Except.bind (readFENRows (splitn 8 '/' s1.1) 0 64 [] []) fun pcsq =>
  let s2 := split_on s1.2 ' '
  Except.bind (parseColor s2.1) fun active =>
  let s3 := split_on s2.2 ' '
  Except.bind (parseCastlingChars s3.1 0) fun rights =>
  let s4 := split_on s3.2 ' '
  Except.bind (parseEnPassant s4.1) fun ep =>
  let s5 := split_on s4.2 ' '
  Except.bind (parseHalfmove s5.1) fun hm =>
  let s6 := split_on s5.2 ' '
  Except.bind (parseFullmove s6.1) fun fm =>
  Except.ok
    { pieces := pcsq.1, squares := pcsq.2, active_color := active,
      castling_rights := rights, en_passant := ep,
      halfmove_clock := hm, fullmove_number := fm }

/-- The FEN of the standard starting position, as in `Game::initialize`. -/
def startFEN : List Char :=
  ("rnbqkbnr/pppppppp/8/8/8/8/PPPPPPPP/RNBQKBNR w KQkq - 0 1").data

/-- `Game::initialize` of `src/game.rs`: decode the standard starting FEN. -/
def initGame : Except Panic Game := read_FEN startFEN

/-- A placeholder game used only to project fields out of an `Except` result
in theorem statements. -/
def emptyGame : Game :=
  { pieces := [], squares := [], active_color := Color.White, castling_rights := 0,
    en_passant := none, halfmove_clock := 0, fullmove_number := 1 }

/-- Project the game out of a decode result (placeholder on error). -/
def gameOr : Except Panic Game → Game
  | Except.ok g => g
  | Except.error _ => emptyGame

/-- Whether a decode (or coordinate) computation succeeded. -/
def isOkE {ε α : Type} : Except ε α → Bool
  | Except.ok _ => true
  | Except.error _ => false

/-- The piece occupying board square `i` of a game, if any: resolve the
`Occupied` reference through the piece list. -/
def squarePiece (g : Game) (i : Nat) : Option Piece :=
  match g.squares.get? i with
  | some (Square.Occupied j) => g.pieces.get? j
  | _ => none

/-- Spec-side reading of one rank substring (§4.4 step 1): scanning left to
right, a letter appends one piece and one `Occupied` square, a digit `d`
appends `d` consecutive `Empty` squares, anything else is the invalid-char
panic; the returned squares are in the left-to-right (file-ascending) order
in which the rank substring lists them, pieces in encounter order.  Character
classification and the piece/panic payloads are exactly those of
`parse_row`. -/
def specParseRow : List Char → Nat → Nat → Except Panic (List Piece × List Square)
  | [], _, _ => Except.ok ([], [])
  | ch :: rest, pieceIndex, piecePosition =>
    let lc := toAsciiLower ch
    let color := if isAsciiUpper ch then Color.White else Color.Black
    match pieceTypeOfChar lc with
    | some pt =>
      Except.map
        (fun x =>
          ({ position := 2 ^ (piecePosition % 64), color := color, piece_type := pt } :: x.1,
           Square.Occupied pieceIndex :: x.2))
        (specParseRow rest (pieceIndex + 1) (piecePosition + 1))
    | none =>
      match toDigit10 lc with
      | some number =>
        Except.map (fun x => (x.1, List.replicate number Square.Empty ++ x.2))
          (specParseRow rest pieceIndex (piecePosition + number))
      | none => Except.error (Panic.invalidPieceChar lc)

/-- Spec-side reading of the whole placement field (§4.4 step 1): the ranks
arrive top (rank 8) to bottom (rank 1); each is read at `piece_position`
decremented by 8, its pieces are appended after those of the earlier ranks,
and its squares — in their listed left-to-right order — are placed *before*
the squares accumulated so far, so that the last rank processed (rank 1)
forms `squares[0..8]` and the first rank processed (rank 8) forms
`squares[56..64]`. -/
def specParsePlacement : List (List Char) → Nat → Nat → Except Panic (List Piece × List Square)
  | [], _, _ => Except.ok ([], [])
  | row :: rows, pieceIndex, piecePosition =>
    let pp := piecePosition - 8
    Except.bind (specParseRow row pieceIndex pp) fun x =>
    Except.map (fun y => (x.1 ++ y.1, y.2 ++ x.2))
      (specParsePlacement rows (pieceIndex + x.1.length) pp)

/-- Number of files a rank substring describes (letters count 1, digit `d`
counts `d`), or `none` if it contains a character `parse_row` rejects. -/
def rankFiles : List Char → Option Nat
  | [] => some 0
  | ch :: rest =>
    let lc := toAsciiLower ch
    match pieceTypeOfChar lc with
    | some _ => Option.map (· + 1) (rankFiles rest)
    | none =>
      match toDigit10 lc with
      | some number => Option.map (· + number) (rankFiles rest)
      | none => none

/-- The piece indices referenced by the `Occupied` squares of a list, in
order. -/
def occIndices (sqs : List Square) : List Nat :=
  sqs.filterMap fun s =>
    match s with
    | Square.Occupied j => some j
    | Square.Empty => none

/-- Join rank substrings with `/` separators — the shape of a well-formed
piece-placement field. -/
def joinWithSlash : List (List Char) → List Char
  | [] => []
  | [r] => r
  | r :: rs => r ++ '/' :: joinWithSlash rs

/-- The claim's per-character acceptance predicate for the placement field:
a decimal digit, or one of `r`, `n`, `b`, `q`, `k`, `p` in either case. -/
def claimRankChar (ch : Char) : Bool :=
  (48 ≤ ch.toNat && ch.toNat ≤ 57) ||
    (['r', 'n', 'b', 'q', 'k', 'p'] : List Char).contains (toAsciiLower ch)

/-- The union of the castling bits named by the characters of a field (`-`
contributes nothing); defined by the spec's description of the castling
field as a union of named rights. -/
def castleUnion (l : List Char) : Nat :=
  l.foldr
    (fun ch acc =>
      (if ch = 'K' then WHITEKINGSIDE
       else if ch = 'Q' then WHITEQUEENSIDE
       else if ch = 'k' then BLACKKINGSIDE
       else if ch = 'q' then BLACKQUEENSIDE
       else 0) ||| acc)
    0

/-- The characters the castling field may contain. -/
def castleAlphabet : List Char := ['K', 'Q', 'k', 'q', '-']

/-- The castling-field string naming exactly the rights of a subset of
`{K, Q, k, q}` (in that order), `"-"` for the empty subset — the claim's
encoding of a subset as a field. -/
def castlingToken (bK bQ bk bq : Bool) : List Char :=
  let s :=
    (if bK then ['K'] else []) ++ (if bQ then ['Q'] else []) ++
    (if bk then ['k'] else []) ++ (if bq then ['q'] else [])
  if s = [] then ['-'] else s

/-- The expected bitflags union for a subset of the four rights. -/
def castleBits (bK bQ bk bq : Bool) : Nat :=
  (if bK then WHITEKINGSIDE else 0) ||| (if bQ then WHITEQUEENSIDE else 0) |||
    (if bk then BLACKKINGSIDE else 0) ||| (if bq then BLACKQUEENSIDE else 0)

/-- An otherwise-valid FEN (empty board, White to move, no en passant,
clocks 0 and 1) whose castling field is the given token. -/
def fenWithCastling (tok : List Char) : List Char :=
  ("8/8/8/8/8/8/8/8 w ").data ++ tok ++ (" - 0 1").data

/-- Classify a `position_to_bit` result by error kind: `0` for success, `1`
for invalid length, `2` for invalid column, `3` for invalid row. -/
def ptbErrKind : Except PtbError Nat → Nat
  | Except.ok _ => 0
  | Except.error (PtbError.invalidLength _ _) => 1
  | Except.error (PtbError.invalidColumn _ _) => 2
  | Except.error (PtbError.invalidRow _ _) => 3

/-- The amended claim C5 as a definition, following the spec's words with
"characters" corrected to UTF-8 bytes: exactly two bytes, the first a column
byte `a`..`h`, the second a digit byte `1`..`8`, giving
`1 << ((row-1)*8 + column)`; the three failure cases carry the same payloads
as the source's error messages. -/
def positionToBitByteSpec (position : List Char) : Except PtbError Nat :=
  let bs := strBytes position
  if bs.length = 2 then
    let b0 := bs.getD 0 0
    let b1 := bs.getD 1 0
    if 97 ≤ b0 ∧ b0 ≤ 104 then
      if 49 ≤ b1 ∧ b1 ≤ 56 then Except.ok (2 ^ ((b1 - 49) * 8 + (b0 - 97)))
      else Except.error (PtbError.invalidRow b1 position)
    else Except.error (PtbError.invalidColumn b0 position)
  else Except.error (PtbError.invalidLength bs.length position)

/-- The eight rank substrings of the standard starting FEN, in FEN order
(rank 8 first). -/
def stdRanks : List (List Char) :=
  [("rnbqkbnr").data, ("pppppppp").data, ("8").data, ("8").data,
   ("8").data, ("8").data, ("PPPPPPPP").data, ("RNBQKBNR").data]

/-- The five non-placement fields of the standard starting FEN. -/
def stdTail : List Char := ("w KQkq - 0 1").data

/-- The game decoded from the standard starting FEN. -/
def stdGame : Game := gameOr (read_FEN startFEN)

end Chess

deriving instance DecidableEq for Except

namespace Chess

theorem exceptBind_ok {ε α β : Type} (x : Except ε α) (f : α → Except ε β) (b : β) :
    Except.bind x f = Except.ok b ↔ ∃ a, x = Except.ok a ∧ f a = Except.ok b := by
  cases x <;> simp [Except.bind]

theorem splitFirst_not_mem {xs : List Char} {c : Char} (h : c ∉ xs) :
    splitFirst xs c = none := by
  induction xs with
  | nil => rfl
  | cons x xs ih =>
    simp only [List.mem_cons, not_or] at h
    simp [splitFirst, ih h.2, Ne.symm h.1]

theorem splitFirst_append {xs ys : List Char} {c : Char} (h : c ∉ xs) :
    splitFirst (xs ++ c :: ys) c = some (xs, ys) := by
  induction xs with
  | nil => simp [splitFirst]
  | cons x xs ih =>
    simp only [List.mem_cons, not_or] at h
    simp [splitFirst, ih h.2, Ne.symm h.1]

theorem split_on_append {xs ys : List Char} {c : Char} (h : c ∉ xs) :
    split_on (xs ++ c :: ys) c = (xs, ys) := by
  simp [split_on, splitFirst_append h]

theorem split_on_not_mem {xs : List Char} {c : Char} (h : c ∉ xs) :
    split_on xs c = (xs, []) := by
  simp [split_on, splitFirst_not_mem h]

theorem splitn_joinWithSlash : ∀ (rows : List (List Char)), rows ≠ [] →
    (∀ r ∈ rows, '/' ∉ r) → splitn rows.length '/' (joinWithSlash rows) = rows
  | [], h, _ => absurd rfl h
  | [r], _, _ => by simp [splitn, joinWithSlash]
  | r :: r2 :: rest, _, hmem => by
    have h1 : '/' ∉ r := hmem r (List.mem_cons_self r _)
    have ih := splitn_joinWithSlash (r2 :: rest) (by simp)
      (fun s hs => hmem s (List.mem_cons_of_mem r hs))
    simp only [joinWithSlash, List.length_cons]
    simp only [splitn, splitFirst_append h1]
    simp only [List.length_cons] at ih
    rw [ih]

theorem parseRowAux_spec : ∀ (row : List Char) (pi pp : Nat) (accP : List Piece)
    (accS : List Square),
    parseRowAux row pi pp accP accS =
      Except.map (fun x => (accP ++ x.1, x.2.reverse ++ accS)) (specParseRow row pi pp)
  | [], pi, pp, accP, accS => by simp [parseRowAux, specParseRow, Except.map]
  | ch :: rest, pi, pp, accP, accS => by
    cases hpt : pieceTypeOfChar (toAsciiLower ch) with
    | some pt =>
      simp only [parseRowAux, specParseRow, hpt]
      rw [parseRowAux_spec rest]
      cases hs : specParseRow rest (pi + 1) (pp + 1) with
      | ok x => simp [Except.map]
      | error e => simp [Except.map]
    | none =>
      cases hd : toDigit10 (toAsciiLower ch) with
      | some n =>
        simp only [parseRowAux, specParseRow, hpt, hd]
        rw [parseRowAux_spec rest]
        cases hs : specParseRow rest pi (pp + n) with
        | ok x => simp [Except.map, List.reverse_append]
        | error e => simp [Except.map]
      | none => simp [parseRowAux, specParseRow, hpt, hd, Except.map]

theorem parse_row_spec (row : List Char) (pi pp : Nat) :
    parse_row row pi pp = Except.map (fun x => (x.1, x.2.reverse)) (specParseRow row pi pp) := by
  rw [parse_row, parseRowAux_spec]
  cases specParseRow row pi pp <;> simp [Except.map]

theorem readFENRows_spec : ∀ (rows : List (List Char)) (pi pp : Nat) (accP : List Piece)
    (accS : List Square),
    readFENRows rows pi pp accP accS =
      Except.map (fun x => (accP ++ x.1, x.2 ++ accS)) (specParsePlacement rows pi pp)
  | [], pi, pp, accP, accS => by simp [readFENRows, specParsePlacement, Except.map]
  | row :: rows, pi, pp, accP, accS => by
    simp only [readFENRows, specParsePlacement, parse_row_spec]
    cases hs : specParseRow row pi (pp - 8) with
    | error e => simp [Except.map, Except.bind]
    | ok x =>
      simp only [Except.map, Except.bind]
      rw [readFENRows_spec rows]
      cases hp : specParsePlacement rows (pi + x.1.length) (pp - 8) with
      | ok y => simp [Except.map, List.reverse_reverse]
      | error e => simp [Except.map]

theorem occIndices_nil : occIndices [] = [] := rfl

theorem occIndices_cons_occ (j : Nat) (sqs : List Square) :
    occIndices (Square.Occupied j :: sqs) = j :: occIndices sqs := rfl

theorem occIndices_replicate_empty (d : Nat) :
    occIndices (List.replicate d Square.Empty) = [] := by
  simp [occIndices, List.filterMap_replicate]

theorem occIndices_append (l l' : List Square) :
    occIndices (l ++ l') = occIndices l ++ occIndices l' := by
  simp [occIndices, List.filterMap_append]

theorem specParseRow_complete : ∀ (row : List Char) (pi pp f : Nat),
    rankFiles row = some f →
    ∃ ps sqs, specParseRow row pi pp = Except.ok (ps, sqs) ∧
      sqs.length = f ∧
      occIndices sqs = List.range' pi ps.length ∧
      ∀ t j, sqs[t]? = some (Square.Occupied j) →
        pi ≤ j ∧ ∃ p, ps[j - pi]? = some p ∧ p.position = 2 ^ ((pp + t) % 64)
  | [], pi, pp, f, hf => by
    obtain rfl : (0 : Nat) = f := by simpa [rankFiles] using hf
    exact ⟨[], [], by simp [specParseRow], rfl, by simp [occIndices_nil, List.range'],
      by intro t j ht; simp at ht⟩
  | ch :: rest, pi, pp, f, hf => by
    cases hpt : pieceTypeOfChar (toAsciiLower ch) with
    | some pt =>
      simp only [rankFiles, hpt] at hf
      obtain ⟨f', hf', rfl⟩ := Option.map_eq_some'.mp hf
      obtain ⟨ps', sqs', hok, hlen, hocc, hpos⟩ :=
        specParseRow_complete rest (pi + 1) (pp + 1) f' hf'
      refine ⟨{ position := 2 ^ (pp % 64),
                color := if isAsciiUpper ch then Color.White else Color.Black,
                piece_type := pt } :: ps', Square.Occupied pi :: sqs',
        by simp [specParseRow, hpt, hok, Except.map], by simp [hlen], ?_, ?_⟩
      · rw [occIndices_cons_occ, hocc, List.length_cons, List.range'_succ]
      · intro t j ht
        cases t with
        | zero =>
          rw [List.getElem?_cons_zero] at ht
          obtain rfl : pi = j := by
            injection ht with h
            injection h
          exact ⟨Nat.le_refl pi,
            ⟨2 ^ (pp % 64), if isAsciiUpper ch then Color.White else Color.Black, pt⟩,
            by simp, by simp⟩
        | succ t' =>
          rw [List.getElem?_cons_succ] at ht
          obtain ⟨hle, p, hp, hpp⟩ := hpos t' j ht
          refine ⟨by omega, p, ?_, by rw [hpp]; congr 2; omega⟩
          have hsub : j - pi = (j - (pi + 1)) + 1 := by omega
          rw [hsub, List.getElem?_cons_succ]
          exact hp
    | none =>
      cases hd : toDigit10 (toAsciiLower ch) with
      | some d =>
        simp only [rankFiles, hpt, hd] at hf
        obtain ⟨f', hf', rfl⟩ := Option.map_eq_some'.mp hf
        obtain ⟨ps', sqs', hok, hlen, hocc, hpos⟩ :=
          specParseRow_complete rest pi (pp + d) f' hf'
        refine ⟨ps', List.replicate d Square.Empty ++ sqs',
          by simp [specParseRow, hpt, hd, hok, Except.map], by simp [hlen]; omega, ?_, ?_⟩
        · rw [occIndices_append, occIndices_replicate_empty, List.nil_append, hocc]
        · intro t j ht
          rcases Nat.lt_or_ge t d with hlt | hge
          · simp [List.getElem?_append, List.length_replicate, hlt,
              List.getElem?_replicate] at ht
          · rw [List.getElem?_append_right (by simp [hge])] at ht
            simp only [List.length_replicate] at ht
            obtain ⟨hle, p, hp, hpp⟩ := hpos (t - d) j ht
            exact ⟨hle, p, hp, by rw [hpp]; congr 2; omega⟩
      | none => simp [rankFiles, hpt, hd] at hf

theorem specParsePlacement_complete : ∀ (rows : List (List Char)) (pi pp : Nat),
    (∀ r ∈ rows, rankFiles r = some 8) → pp = 8 * rows.length →
    ∃ ps sqs, specParsePlacement rows pi pp = Except.ok (ps, sqs) ∧
      sqs.length = pp ∧
      (occIndices sqs).Perm (List.range' pi ps.length) ∧
      ∀ t j, sqs[t]? = some (Square.Occupied j) →
        pi ≤ j ∧ ∃ p, ps[j - pi]? = some p ∧ p.position = 2 ^ (t % 64)
  | [], pi, pp, _, hpp => by
    refine ⟨[], [], by simp [specParsePlacement], by simp [hpp], by
      simp [occIndices_nil, List.range'], ?_⟩
    intro t j ht
    simp at ht
  | row :: rows, pi, pp, hv, hpp => by
    have hrow : rankFiles row = some 8 := hv row (List.mem_cons_self _ _)
    have hpp8 : 8 ≤ pp := by simp [List.length_cons] at hpp; omega
    have hpp' : pp - 8 = 8 * rows.length := by simp [List.length_cons] at hpp; omega
    obtain ⟨ps1, sqs1, hok1, hlen1, hocc1, hpos1⟩ :=
      specParseRow_complete row pi (pp - 8) 8 hrow
    obtain ⟨ps2, sqs2, hok2, hlen2, hocc2, hpos2⟩ :=
      specParsePlacement_complete rows (pi + ps1.length) (pp - 8)
        (fun r hr => hv r (List.mem_cons_of_mem _ hr)) hpp'
    refine ⟨ps1 ++ ps2, sqs2 ++ sqs1, ?_, ?_, ?_, ?_⟩
    · simp [specParsePlacement, hok1, hok2, Except.bind, Except.map]
    · simp only [List.length_append, hlen1, hlen2]
      omega
    · rw [occIndices_append, List.length_append]
      have h1 : (occIndices sqs2 ++ occIndices sqs1).Perm
          (List.range' (pi + ps1.length) ps2.length ++ List.range' pi ps1.length) :=
        List.Perm.append hocc2 (by rw [hocc1])
      refine h1.trans (List.perm_append_comm.trans ?_)
      have h2 := List.range'_append pi ps1.length ps2.length 1
      simp only [Nat.one_mul] at h2
      rw [h2, Nat.add_comm ps2.length ps1.length]
    · intro t j ht
      rcases Nat.lt_or_ge t sqs2.length with hlt | hge
      · rw [List.getElem?_append, if_pos hlt] at ht
        obtain ⟨hle, p, hp, hpp2⟩ := hpos2 t j ht
        have hbound : ps1.length ≤ j - pi := by omega
        refine ⟨by omega, p, ?_, hpp2⟩
        rw [List.getElem?_append_right hbound]
        have : j - pi - ps1.length = j - (pi + ps1.length) := by omega
        rw [this]
        exact hp
      · rw [List.getElem?_append_right hge] at ht
        obtain ⟨hle, p, hp, hpp1⟩ := hpos1 (t - sqs2.length) j ht
        have hjlt : j - pi < ps1.length := by
          obtain ⟨hb, -⟩ := List.getElem?_eq_some.mp hp
          omega
        refine ⟨hle, p, ?_, ?_⟩
        · rw [List.getElem?_append, if_pos hjlt]
          exact hp
        · rw [hpp1]
          congr 2
          omega

theorem rankFiles_valid_chars : ∀ (row : List Char) (f : Nat), rankFiles row = some f →
    ∀ c ∈ row, (pieceTypeOfChar (toAsciiLower c)).isSome ∨ (toDigit10 (toAsciiLower c)).isSome
  | [], _, _, c, hc => by simp at hc
  | ch :: rest, f, hf, c, hc => by
    rcases List.mem_cons.mp hc with rfl | hmem
    · cases hpt : pieceTypeOfChar (toAsciiLower c) with
      | some pt => simp [hpt]
      | none =>
        cases hd : toDigit10 (toAsciiLower c) with
        | some d => simp [hd]
        | none => simp [rankFiles, hpt, hd] at hf
    · cases hpt : pieceTypeOfChar (toAsciiLower ch) with
      | some pt =>
        simp only [rankFiles, hpt] at hf
        obtain ⟨f', hf', -⟩ := Option.map_eq_some'.mp hf
        exact rankFiles_valid_chars rest f' hf' c hmem
      | none =>
        cases hd : toDigit10 (toAsciiLower ch) with
        | some d =>
          simp only [rankFiles, hpt, hd] at hf
          obtain ⟨f', hf', -⟩ := Option.map_eq_some'.mp hf
          exact rankFiles_valid_chars rest f' hf' c hmem
        | none => simp [rankFiles, hpt, hd] at hf

theorem rankFiles_no_space {row : List Char} {f : Nat} (h : rankFiles row = some f) :
    (' ' : Char) ∉ row := by
  intro hmem
  rcases rankFiles_valid_chars row f h ' ' hmem with hs | hs <;> revert hs <;> decide

theorem rankFiles_no_slash {row : List Char} {f : Nat} (h : rankFiles row = some f) :
    ('/' : Char) ∉ row := by
  intro hmem
  rcases rankFiles_valid_chars row f h '/' hmem with hs | hs <;> revert hs <;> decide

theorem mem_joinWithSlash : ∀ (rows : List (List Char)) (c : Char),
    c ∈ joinWithSlash rows → c = '/' ∨ ∃ r ∈ rows, c ∈ r
  | [], c, h => by simp [joinWithSlash] at h
  | [r], c, h => Or.inr ⟨r, List.mem_cons_self r [], h⟩
  | r :: r2 :: rest, c, h => by
    rcases List.mem_append.mp h with hr | hs
    · exact Or.inr ⟨r, List.mem_cons_self r _, hr⟩
    · rcases List.mem_cons.mp hs with rfl | hjoin
      · exact Or.inl rfl
      · rcases mem_joinWithSlash (r2 :: rest) c hjoin with hsl | ⟨s, hsmem, hcs⟩
        · exact Or.inl hsl
        · exact Or.inr ⟨s, List.mem_cons_of_mem r hsmem, hcs⟩

theorem joinWithSlash_no_space {rows : List (List Char)}
    (hv : ∀ r ∈ rows, rankFiles r = some 8) : (' ' : Char) ∉ joinWithSlash rows := by
  intro hmem
  rcases mem_joinWithSlash rows ' ' hmem with hsl | ⟨r, hr, hcr⟩
  · exact absurd hsl (by decide)
  · exact rankFiles_no_space (hv r hr) hcr

/-- Decoding a FEN whose placement field is 8 valid 8-file ranks: on success,
the pieces and squares of the returned game are exactly those of the
spec-order placement reading. -/
theorem read_FEN_ok_fields (rows : List (List Char)) (rest : List Char) (g : Game)
    (h8 : rows.length = 8) (hv : ∀ r ∈ rows, rankFiles r = some 8)
    (hok : read_FEN (joinWithSlash rows ++ ' ' :: rest) = Except.ok g) :
    specParsePlacement rows 0 64 = Except.ok (g.pieces, g.squares) := by
  have hnos : (' ' : Char) ∉ joinWithSlash rows := joinWithSlash_no_space hv
  have hsplit : split_on (joinWithSlash rows ++ ' ' :: rest) ' ' = (joinWithSlash rows, rest) :=
    split_on_append hnos
  have hnil : rows ≠ [] := by
    intro hn
    rw [hn] at h8
    simp at h8
  have hsn : splitn 8 '/' (joinWithSlash rows) = rows := by
    rw [← h8]
    exact splitn_joinWithSlash rows hnil (fun r hr => rankFiles_no_slash (hv r hr))
  obtain ⟨ps, sqs, hpp, -, -, -⟩ :=
    specParsePlacement_complete rows 0 64 hv (by rw [h8])
  simp only [read_FEN, hsplit] at hok
  rw [hsn, readFENRows_spec, hpp] at hok
  simp only [Except.map, Except.bind, List.nil_append, List.append_nil] at hok
  obtain ⟨active, hA, hok⟩ := (exceptBind_ok _ _ _).mp hok
  obtain ⟨rights, hR, hok⟩ := (exceptBind_ok _ _ _).mp hok
  obtain ⟨ep, hE, hok⟩ := (exceptBind_ok _ _ _).mp hok
  obtain ⟨hm, hH, hok⟩ := (exceptBind_ok _ _ _).mp hok
  obtain ⟨fm, hF, hok⟩ := (exceptBind_ok _ _ _).mp hok
  have hg : (⟨ps, sqs, active, rights, ep, hm, fm⟩ : Game) = g := by
    injection hok
  rw [← hg]
  exact hpp

theorem parseCastlingChars_valid : ∀ (l : List Char) (acc : Nat),
    (∀ c ∈ l, c ∈ castleAlphabet) →
    parseCastlingChars l acc = Except.ok (acc ||| castleUnion l)
  | [], acc, _ => by simp [parseCastlingChars, castleUnion]
  | c :: rest, acc, hval => by
    have hc : c ∈ castleAlphabet := hval c (List.mem_cons_self _ _)
    have hrest : ∀ x ∈ rest, x ∈ castleAlphabet :=
      fun x hx => hval x (List.mem_cons_of_mem _ hx)
    have ih := fun a => parseCastlingChars_valid rest a hrest
    have hcu : castleUnion (c :: rest) =
        (if c = 'K' then WHITEKINGSIDE
         else if c = 'Q' then WHITEQUEENSIDE
         else if c = 'k' then BLACKKINGSIDE
         else if c = 'q' then BLACKQUEENSIDE
         else 0) ||| castleUnion rest := rfl
    fin_cases hc <;>
      simp [parseCastlingChars, hcu, ih, Nat.lor_assoc]

theorem parseCastlingChars_append : ∀ (a b : List Char) (acc : Nat),
    parseCastlingChars (a ++ b) acc =
      (match parseCastlingChars a acc with
       | Except.ok u => parseCastlingChars b u
       | Except.error e => Except.error e)
  | [], b, acc => by simp [parseCastlingChars]
  | c :: rest, b, acc => by
    by_cases hK : c = 'K'
    · simp [parseCastlingChars, hK, parseCastlingChars_append rest b]
    · by_cases hQ : c = 'Q'
      · simp [parseCastlingChars, hK, hQ, parseCastlingChars_append rest b]
      · by_cases hk : c = 'k'
        · simp [parseCastlingChars, hK, hQ, hk, parseCastlingChars_append rest b]
        · by_cases hq : c = 'q'
          · simp [parseCastlingChars, hK, hQ, hk, hq, parseCastlingChars_append rest b]
          · by_cases hdash : c = '-'
            · simp [parseCastlingChars, hK, hQ, hk, hq, hdash, parseCastlingChars_append rest b]
            · simp [parseCastlingChars, hK, hQ, hk, hq, hdash]

theorem parseCastlingChars_acc : ∀ (l : List Char) (acc : Nat),
    parseCastlingChars l acc = Except.map (acc ||| ·) (parseCastlingChars l 0)
  | [], acc => by simp [parseCastlingChars, Except.map]
  | c :: rest, acc => by
    have ih := parseCastlingChars_acc rest
    by_cases hK : c = 'K'
    · simp only [parseCastlingChars, hK, if_pos rfl, if_true]
      rw [ih (acc ||| WHITEKINGSIDE), ih (0 ||| WHITEKINGSIDE)]
      cases parseCastlingChars rest 0 <;> simp [Except.map, Nat.lor_assoc]
    · by_cases hQ : c = 'Q'
      · simp only [parseCastlingChars, hK, hQ, if_false, if_pos rfl]
        rw [ih (acc ||| WHITEQUEENSIDE), ih (0 ||| WHITEQUEENSIDE)]
        cases parseCastlingChars rest 0 <;> simp [Except.map, Nat.lor_assoc]
      · by_cases hk : c = 'k'
        · simp only [parseCastlingChars, hK, hQ, hk, if_false, if_pos rfl]
          rw [ih (acc ||| BLACKKINGSIDE), ih (0 ||| BLACKKINGSIDE)]
          cases parseCastlingChars rest 0 <;> simp [Except.map, Nat.lor_assoc]
        · by_cases hq : c = 'q'
          · simp only [parseCastlingChars, hK, hQ, hk, hq, if_false, if_pos rfl]
            rw [ih (acc ||| BLACKQUEENSIDE), ih (0 ||| BLACKQUEENSIDE)]
            cases parseCastlingChars rest 0 <;> simp [Except.map, Nat.lor_assoc]
          · by_cases hdash : c = '-'
            · simp only [parseCastlingChars, hK, hQ, hk, hq, hdash, if_false, if_pos rfl]
              exact ih acc
            · simp [parseCastlingChars, hK, hQ, hk, hq, hdash, Except.map]

theorem castleUnion_filter_dash (l : List Char) :
    castleUnion (l.filter (fun c => decide (c ≠ '-'))) = castleUnion l := by
  induction l with
  | nil => rfl
  | cons c rest ih =>
    simp only [ne_eq, decide_not] at ih ⊢
    by_cases hdash : c = '-'
    · subst hdash
      have hcu : castleUnion ('-' :: rest) = 0 ||| castleUnion rest := rfl
      simp [List.filter_cons, hcu, ih]
    · have hcu : castleUnion (c :: rest) =
          (if c = 'K' then WHITEKINGSIDE
           else if c = 'Q' then WHITEQUEENSIDE
           else if c = 'k' then BLACKKINGSIDE
           else if c = 'q' then BLACKQUEENSIDE
           else 0) ||| castleUnion rest := rfl
      have hcu2 : castleUnion (c :: rest.filter (fun c => !decide (c = '-'))) =
          (if c = 'K' then WHITEKINGSIDE
           else if c = 'Q' then WHITEQUEENSIDE
           else if c = 'k' then BLACKKINGSIDE
           else if c = 'q' then BLACKQUEENSIDE
           else 0) ||| castleUnion (rest.filter (fun c => !decide (c = '-'))) := rfl
      simp [List.filter_cons, hdash, hcu, hcu2, ih]

theorem castleUnion_perm {l1 l2 : List Char} (h : l1.Perm l2) :
    castleUnion l1 = castleUnion l2 := by
  have inst : LeftCommutative (fun (ch : Char) (acc : Nat) =>
      (if ch = 'K' then WHITEKINGSIDE
       else if ch = 'Q' then WHITEQUEENSIDE
       else if ch = 'k' then BLACKKINGSIDE
       else if ch = 'q' then BLACKQUEENSIDE
       else 0) ||| acc) := by
    constructor
    intro a b acc
    rw [← Nat.lor_assoc, ← Nat.lor_assoc, Nat.lor_comm
      (if a = 'K' then WHITEKINGSIDE
       else if a = 'Q' then WHITEQUEENSIDE
       else if a = 'k' then BLACKKINGSIDE
       else if a = 'q' then BLACKQUEENSIDE
       else 0)]
  exact List.Perm.foldr_eq h 0

theorem exceptMap_ok {ε α β : Type} (f : α → β) (x : Except ε α) (b : β) :
    Except.map f x = Except.ok b ↔ ∃ a, x = Except.ok a ∧ f a = b := by
  cases x <;> simp [Except.map]

theorem pieceTypeOfChar_isSome (d : Char) :
    (pieceTypeOfChar d).isSome = (['r', 'n', 'b', 'q', 'k', 'p'] : List Char).contains d := by
  unfold pieceTypeOfChar
  split_ifs with h1 h2 h3 h4 h5 h6 <;> simp_all [List.contains]

theorem toNat_toAsciiLower_of_upper {c : Char} (h : isAsciiUpper c = true) :
    (toAsciiLower c).toNat = c.toNat + 32 := by
  have hb : 65 ≤ c.toNat ∧ c.toNat ≤ 90 := by
    simpa [isAsciiUpper] using h
  have hval : (c.toNat + 32).isValidChar := by
    left
    omega
  simp only [toAsciiLower, h, if_true, Char.ofNat, dif_pos hval]
  rfl

theorem validChar_iff (c : Char) :
    ((pieceTypeOfChar (toAsciiLower c)).isSome || (toDigit10 (toAsciiLower c)).isSome) =
      claimRankChar c := by
  rw [pieceTypeOfChar_isSome, claimRankChar]
  have hsome : ∀ d : Char, (toDigit10 d).isSome = (48 ≤ d.toNat && d.toNat ≤ 57) := by
    intro d
    unfold toDigit10
    split_ifs with hd <;> simp [hd]
  have hdig : (toDigit10 (toAsciiLower c)).isSome = (48 ≤ c.toNat && c.toNat ≤ 57) := by
    by_cases hu : isAsciiUpper c = true
    · have hb : 65 ≤ c.toNat ∧ c.toNat ≤ 90 := by simpa [isAsciiUpper] using hu
      have hlow := toNat_toAsciiLower_of_upper hu
      rw [hsome, hlow, Bool.eq_iff_iff]
      simp only [Bool.and_eq_true, decide_eq_true_eq]
      omega
    · have heq : toAsciiLower c = c := by simp [toAsciiLower, hu]
      rw [hsome, heq]
  rw [hdig, Bool.or_comm]

theorem parseRowAux_isOk : ∀ (row : List Char) (pi pp : Nat) (accP : List Piece)
    (accS : List Square),
    isOkE (parseRowAux row pi pp accP accS) = row.all claimRankChar
  | [], pi, pp, accP, accS => by simp [parseRowAux, isOkE]
  | ch :: rest, pi, pp, accP, accS => by
    rw [List.all_cons, ← validChar_iff ch]
    cases hpt : pieceTypeOfChar (toAsciiLower ch) with
    | some pt =>
      simp only [parseRowAux, hpt]
      rw [parseRowAux_isOk rest]
      simp [hpt]
    | none =>
      cases hd : toDigit10 (toAsciiLower ch) with
      | some d =>
        simp only [parseRowAux, hpt, hd]
        rw [parseRowAux_isOk rest]
        simp [hpt, hd]
      | none => simp [parseRowAux, hpt, hd, isOkE]

theorem count_occIndices (sqs : List Square) (j : Nat) :
    sqs.count (Square.Occupied j) = (occIndices sqs).count j := by
  induction sqs with
  | nil => rfl
  | cons s rest ih =>
    cases s with
    | Empty =>
      have h1 : occIndices (Square.Empty :: rest) = occIndices rest := rfl
      rw [h1, List.count_cons, ← ih]
      simp
    | Occupied i =>
      have h1 : occIndices (Square.Occupied i :: rest) = i :: occIndices rest := rfl
      rw [h1, List.count_cons, List.count_cons, ← ih]
      by_cases hij : i = j <;> simp [hij]

/-- Splitting a six-field FEN into its tokens: when none of the first five
fields (nor the sixth) contains a space, `read_FEN` is the six-stage pipeline
applied to the fields. -/
theorem read_FEN_tokens (f1 f2 f3 f4 f5 f6 : List Char)
    (h1 : (' ' : Char) ∉ f1) (h2 : (' ' : Char) ∉ f2) (h3 : (' ' : Char) ∉ f3)
    (h4 : (' ' : Char) ∉ f4) (h5 : (' ' : Char) ∉ f5) (h6 : (' ' : Char) ∉ f6) :
    read_FEN (f1 ++ ' ' :: (f2 ++ ' ' :: (f3 ++ ' ' :: (f4 ++ ' ' :: (f5 ++ ' ' :: f6))))) =
      Except.bind (readFENRows (splitn 8 '/' f1) 0 64 [] []) (fun pcsq =>
      Except.bind (parseColor f2) (fun active =>
      Except.bind (parseCastlingChars f3 0) (fun rights =>
      Except.bind (parseEnPassant f4) (fun ep =>
      Except.bind (parseHalfmove f5) (fun hm =>
      Except.bind (parseFullmove f6) (fun fm =>
      Except.ok ⟨pcsq.1, pcsq.2, active, rights, ep, hm, fm⟩)))))) := by
  simp only [read_FEN, split_on_append h1, split_on_append h2, split_on_append h3,
    split_on_append h4, split_on_append h5, split_on_not_mem h6]

/-- **C1**: for every square index `i` in `[0, 63]`,
`position_to_bit (index_to_position i)` returns `Ok (1 << i)` and
`bit_to_position (1 << i)` returns `Ok (index_to_position i)`: the
square-index / algebraic-notation / single-bit mappings round-trip exactly
on all 64 squares. -/
theorem C1_coordinate_round_trip :
    ∀ i : Fin 64,
      position_to_bit (index_to_position i.val) = Except.ok (2 ^ i.val) ∧
      bit_to_position (2 ^ i.val) = Except.ok (index_to_position i.val) := by
  decide

/-- **C2**: decoding the standard starting FEN (equivalently, calling
`initialize()`) yields active color White, castling rights ALL, no en
passant, halfmove clock 0, fullmove number 1, a White Rook on square 0
("a1"), the White King on square 4 ("e1"), the Black King on square 60
("e8"), and squares 16 through 47 (ranks 3–6) all Empty. -/
theorem C2_standard_position :
    initGame = read_FEN startFEN ∧
    read_FEN startFEN = Except.ok stdGame ∧
    stdGame.active_color = Color.White ∧
    stdGame.castling_rights = CASTLE_ALL ∧
    stdGame.en_passant = none ∧
    stdGame.halfmove_clock = 0 ∧
    stdGame.fullmove_number = 1 ∧
    squarePiece stdGame 0 = some ⟨2 ^ 0, Color.White, PieceType.Rook⟩ ∧
    squarePiece stdGame 4 = some ⟨2 ^ 4, Color.White, PieceType.King⟩ ∧
    squarePiece stdGame 60 = some ⟨2 ^ 60, Color.Black, PieceType.King⟩ ∧
    (stdGame.squares.drop 16).take 32 = List.replicate 32 Square.Empty := by
  decide

/-- **C9** (implicit): the rank parser accepts the digits `0` and `9`
without error — `0` produces zero empty squares (a no-op) and `9` produces
nine consecutive empty squares — and a placement row is accepted exactly
when each of its characters is a decimal digit or one of r/n/b/q/k/p in
either case. -/
theorem C9_digit_runs :
    (∀ pi pp : Nat, parse_row ['0'] pi pp = Except.ok ([], [])) ∧
    (∀ pi pp : Nat, parse_row ['9'] pi pp = Except.ok ([], List.replicate 9 Square.Empty)) ∧
    (∀ (row : List Char) (pi pp : Nat),
      isOkE (parse_row row pi pp) = row.all claimRankChar) := by
  refine ⟨?_, ?_, ?_⟩
  · intro pi pp
    have h1 : pieceTypeOfChar (toAsciiLower '0') = none := by decide
    have h2 : toDigit10 (toAsciiLower '0') = some 0 := by decide
    simp [parse_row, parseRowAux, h1, h2]
  · intro pi pp
    have h1 : pieceTypeOfChar (toAsciiLower '9') = none := by decide
    have h2 : toDigit10 (toAsciiLower '9') = some 9 := by decide
    simp [parse_row, parseRowAux, h1, h2]
  · intro row pi pp
    exact parseRowAux_isOk row pi pp [] []

/-- **C6**: for every subset of the four rights `{K, Q, k, q}` (16
combinations, `"-"` for the empty subset), decoding an otherwise-valid FEN
whose castling field names exactly that subset yields `castling_rights`
equal to the union of the corresponding named rights (the empty subset
yielding the none-value `0`); and duplicating the characters of any castling
field leaves its decode unchanged (union is idempotent). -/
theorem C6_castling_subsets :
    (∀ bK bQ bk bq : Bool,
      read_FEN (fenWithCastling (castlingToken bK bQ bk bq)) =
        Except.ok (gameOr (read_FEN (fenWithCastling (castlingToken bK bQ bk bq)))) ∧
      (gameOr (read_FEN (fenWithCastling (castlingToken bK bQ bk bq)))).castling_rights =
        castleBits bK bQ bk bq) ∧
    (∀ l : List Char, parseCastlingChars (l ++ l) 0 = parseCastlingChars l 0) := by
  constructor
  · decide
  · intro l
    rw [parseCastlingChars_append]
    cases hl : parseCastlingChars l 0 with
    | error e => rfl
    | ok u =>
      show parseCastlingChars l u = Except.ok u
      rw [parseCastlingChars_acc, hl]
      simp [Except.map]

/-- **C10** (implicit): in the castling field, `-` is accepted as a no-op at
any position and may be interleaved with right letters (`"K-q"` decodes to
WHITEKINGSIDE ∪ BLACKQUEENSIDE), an empty castling field yields the
none-value, and for fields over the alphabet `{K, Q, k, q, -}` the decode
depends only on the multiset of letters `K, Q, k, q` the field contains. -/
theorem C10_castling_dash_and_multiset :
    (read_FEN (fenWithCastling (("K-q").data)) =
        Except.ok (gameOr (read_FEN (fenWithCastling (("K-q").data)))) ∧
      (gameOr (read_FEN (fenWithCastling (("K-q").data)))).castling_rights =
        (WHITEKINGSIDE ||| BLACKQUEENSIDE)) ∧
    (read_FEN (fenWithCastling []) = Except.ok (gameOr (read_FEN (fenWithCastling []))) ∧
      (gameOr (read_FEN (fenWithCastling []))).castling_rights = CASTLE_NONE) ∧
    (∀ l1 l2 : List Char,
      (∀ c ∈ l1, c ∈ castleAlphabet) → (∀ c ∈ l2, c ∈ castleAlphabet) →
      (l1.filter (fun c => decide (c ≠ '-'))).Perm (l2.filter (fun c => decide (c ≠ '-'))) →
      parseCastlingChars l1 0 = parseCastlingChars l2 0) := by
  refine ⟨by decide, by decide, ?_⟩
  intro l1 l2 hv1 hv2 hperm
  rw [parseCastlingChars_valid l1 0 hv1, parseCastlingChars_valid l2 0 hv2]
  have he : castleUnion l1 = castleUnion l2 := by
    rw [← castleUnion_filter_dash l1, ← castleUnion_filter_dash l2]
    exact castleUnion_perm hperm
  rw [he]

/-- Witness for C10: instantiating the multiset part at `"K-q"` versus
`"qK-"`, whose letter multisets agree. -/
theorem C10_witness :
    (∀ c ∈ (("K-q").data : List Char), c ∈ castleAlphabet) ∧
    (∀ c ∈ (("qK-").data : List Char), c ∈ castleAlphabet) ∧
    ((("K-q").data.filter (fun c => decide (c ≠ '-'))).Perm
      ((("qK-").data).filter (fun c => decide (c ≠ '-')))) ∧
    parseCastlingChars (("K-q").data) 0 = parseCastlingChars (("qK-").data) 0 :=
  ⟨by decide, by decide, by decide,
    C10_castling_dash_and_multiset.2.2 (("K-q").data) (("qK-").data)
      (by decide) (by decide) (by decide)⟩

/-- **C3**: for every FEN whose placement field is exactly 8 `/`-separated
ranks each describing exactly 8 files, and whose decode succeeds, the
returned game satisfies: `squares` has exactly 64 entries; every
`Occupied j` square at board index `t` has `j < pieces.length` and
`pieces[j].position = 1 << t`; and every piece is referenced by exactly one
`Occupied` square. -/
theorem C3_decode_invariants (rows : List (List Char)) (rest : List Char) (g : Game)
    (h8 : rows.length = 8) (hv : ∀ r ∈ rows, rankFiles r = some 8)
    (hok : read_FEN (joinWithSlash rows ++ ' ' :: rest) = Except.ok g) :
    g.squares.length = 64 ∧
    (∀ t j, g.squares[t]? = some (Square.Occupied j) →
      j < g.pieces.length ∧ ∃ p, g.pieces[j]? = some p ∧ p.position = 2 ^ t) ∧
    (∀ j, j < g.pieces.length → g.squares.count (Square.Occupied j) = 1) := by
  have hfield := read_FEN_ok_fields rows rest g h8 hv hok
  obtain ⟨ps, sqs, hpp, hlen, hperm, hpos⟩ :=
    specParsePlacement_complete rows 0 64 hv (by rw [h8])
  rw [hfield] at hpp
  injection hpp with hpair
  injection hpair with hps hsqs
  subst hps
  subst hsqs
  refine ⟨hlen, ?_, ?_⟩
  · intro t j ht
    obtain ⟨-, p, hp, hppos⟩ := hpos t j ht
    rw [Nat.sub_zero] at hp
    obtain ⟨hjlt, -⟩ := List.getElem?_eq_some.mp hp
    obtain ⟨htlt, -⟩ := List.getElem?_eq_some.mp ht
    rw [hlen] at htlt
    refine ⟨hjlt, p, hp, ?_⟩
    rw [hppos, Nat.mod_eq_of_lt htlt]
  · intro j hj
    rw [count_occIndices, hperm.count_eq j]
    exact List.count_eq_one_of_mem (List.nodup_range' _ _)
      (List.mem_range'_1.mpr ⟨Nat.zero_le j, by omega⟩)

/-- Witness for C3: the standard starting FEN satisfies the hypotheses, and
its decode satisfies all three invariants. -/
theorem C3_witness :
    stdRanks.length = 8 ∧
    (∀ r ∈ stdRanks, rankFiles r = some 8) ∧
    read_FEN (joinWithSlash stdRanks ++ ' ' :: stdTail) = Except.ok stdGame ∧
    (stdGame.squares.length = 64 ∧
     (∀ t j, stdGame.squares[t]? = some (Square.Occupied j) →
       j < stdGame.pieces.length ∧ ∃ p, stdGame.pieces[j]? = some p ∧ p.position = 2 ^ t) ∧
     (∀ j, j < stdGame.pieces.length → stdGame.squares.count (Square.Occupied j) = 1)) :=
  ⟨by decide, by decide, by decide,
    C3_decode_invariants stdRanks stdTail stdGame (by decide) (by decide) (by decide)⟩

/-- **C4**: after decoding a placement of exactly 8 ranks of 8 files each
(FEN order `r8, …, r1`, rank 8 first), the squares list is ordered bottom-up
and file-ascending: `squares` is the concatenation of the per-rank square
lists of ranks 1, 2, …, 8 in that order — rank 1 being the last FEN rank
processed — each rank contributing its squares in the left-to-right order
its substring lists them (`specParseRow`), at the piece positions `0, 8, …,
56` respectively, with the piece list concatenated in rank-8-to-rank-1
(parse) order. -/
theorem C4_squares_order (r8 r7 r6 r5 r4 r3 r2 r1 rest : List Char) (g : Game)
    (hv : ∀ r ∈ [r8, r7, r6, r5, r4, r3, r2, r1], rankFiles r = some 8)
    (hok : read_FEN (joinWithSlash [r8, r7, r6, r5, r4, r3, r2, r1] ++ ' ' :: rest) =
      Except.ok g) :
    ∃ x8 x7 x6 x5 x4 x3 x2 x1 : List Piece × List Square,
      specParseRow r8 0 56 = Except.ok x8 ∧
      specParseRow r7 x8.1.length 48 = Except.ok x7 ∧
      specParseRow r6 (x8.1.length + x7.1.length) 40 = Except.ok x6 ∧
      specParseRow r5 (x8.1.length + x7.1.length + x6.1.length) 32 = Except.ok x5 ∧
      specParseRow r4 (x8.1.length + x7.1.length + x6.1.length + x5.1.length) 24 =
        Except.ok x4 ∧
      specParseRow r3
        (x8.1.length + x7.1.length + x6.1.length + x5.1.length + x4.1.length) 16 =
        Except.ok x3 ∧
      specParseRow r2
        (x8.1.length + x7.1.length + x6.1.length + x5.1.length + x4.1.length +
          x3.1.length) 8 = Except.ok x2 ∧
      specParseRow r1
        (x8.1.length + x7.1.length + x6.1.length + x5.1.length + x4.1.length +
          x3.1.length + x2.1.length) 0 = Except.ok x1 ∧
      g.pieces = x8.1 ++ x7.1 ++ x6.1 ++ x5.1 ++ x4.1 ++ x3.1 ++ x2.1 ++ x1.1 ∧
      g.squares = x1.2 ++ x2.2 ++ x3.2 ++ x4.2 ++ x5.2 ++ x6.2 ++ x7.2 ++ x8.2 := by
  have hfield := read_FEN_ok_fields [r8, r7, r6, r5, r4, r3, r2, r1] rest g (by rfl) hv hok
  simp only [specParsePlacement] at hfield
  norm_num at hfield
  obtain ⟨x8, hx8, hfield⟩ := (exceptBind_ok _ _ _).mp hfield
  obtain ⟨y8, hy8, hfield⟩ := (exceptMap_ok _ _ _).mp hfield
  obtain ⟨x7, hx7, hy8⟩ := (exceptBind_ok _ _ _).mp hy8
  obtain ⟨y7, hy7, hy8⟩ := (exceptMap_ok _ _ _).mp hy8
  obtain ⟨x6, hx6, hy7⟩ := (exceptBind_ok _ _ _).mp hy7
  obtain ⟨y6, hy6, hy7⟩ := (exceptMap_ok _ _ _).mp hy7
  obtain ⟨x5, hx5, hy6⟩ := (exceptBind_ok _ _ _).mp hy6
  obtain ⟨y5, hy5, hy6⟩ := (exceptMap_ok _ _ _).mp hy6
  obtain ⟨x4, hx4, hy5⟩ := (exceptBind_ok _ _ _).mp hy5
  obtain ⟨y4, hy4, hy5⟩ := (exceptMap_ok _ _ _).mp hy5
  obtain ⟨x3, hx3, hy4⟩ := (exceptBind_ok _ _ _).mp hy4
  obtain ⟨y3, hy3, hy4⟩ := (exceptMap_ok _ _ _).mp hy4
  obtain ⟨x2, hx2, hy3⟩ := (exceptBind_ok _ _ _).mp hy3
  obtain ⟨y2, hy2, hy3⟩ := (exceptMap_ok _ _ _).mp hy3
  obtain ⟨x1, hx1, hy2⟩ := (exceptBind_ok _ _ _).mp hy2
  obtain ⟨y1, hy1, hy2⟩ := (exceptMap_ok _ _ _).mp hy2
  have h1 : y1 = (([] : List Piece), ([] : List Square)) := (Except.ok.inj hy1).symm
  refine ⟨x8, x7, x6, x5, x4, x3, x2, x1, hx8, hx7, hx6, hx5, hx4, hx3, hx2, hx1, ?_, ?_⟩
  · have ef : x8.1 ++ y8.1 = g.pieces := congrArg Prod.fst hfield
    have e8 : x7.1 ++ y7.1 = y8.1 := congrArg Prod.fst hy8
    have e7 : x6.1 ++ y6.1 = y7.1 := congrArg Prod.fst hy7
    have e6 : x5.1 ++ y5.1 = y6.1 := congrArg Prod.fst hy6
    have e5 : x4.1 ++ y4.1 = y5.1 := congrArg Prod.fst hy5
    have e4 : x3.1 ++ y3.1 = y4.1 := congrArg Prod.fst hy4
    have e3 : x2.1 ++ y2.1 = y3.1 := congrArg Prod.fst hy3
    have e2 : x1.1 ++ y1.1 = y2.1 := congrArg Prod.fst hy2
    have e1 : y1.1 = [] := congrArg Prod.fst h1
    rw [← ef, ← e8, ← e7, ← e6, ← e5, ← e4, ← e3, ← e2, e1]
    simp [List.append_assoc]
  · have ef : y8.2 ++ x8.2 = g.squares := congrArg Prod.snd hfield
    have e8 : y7.2 ++ x7.2 = y8.2 := congrArg Prod.snd hy8
    have e7 : y6.2 ++ x6.2 = y7.2 := congrArg Prod.snd hy7
    have e6 : y5.2 ++ x5.2 = y6.2 := congrArg Prod.snd hy6
    have e5 : y4.2 ++ x4.2 = y5.2 := congrArg Prod.snd hy5
    have e4 : y3.2 ++ x3.2 = y4.2 := congrArg Prod.snd hy4
    have e3 : y2.2 ++ x2.2 = y3.2 := congrArg Prod.snd hy3
    have e2 : y1.2 ++ x1.2 = y2.2 := congrArg Prod.snd hy2
    have e1 : y1.2 = [] := congrArg Prod.snd h1
    rw [← ef, ← e8, ← e7, ← e6, ← e5, ← e4, ← e3, ← e2, e1]
    simp [List.append_assoc]

/-- Witness for C4: the ranks of the standard starting FEN satisfy the
hypotheses, and its decode has the stated bottom-up, file-ascending
structure. -/
theorem C4_witness :
    (∀ r ∈ [("rnbqkbnr").data, ("pppppppp").data, ("8").data, ("8").data,
      ("8").data, ("8").data, ("PPPPPPPP").data, ("RNBQKBNR").data],
      rankFiles r = some 8) ∧
    read_FEN (joinWithSlash [("rnbqkbnr").data, ("pppppppp").data, ("8").data, ("8").data,
      ("8").data, ("8").data, ("PPPPPPPP").data, ("RNBQKBNR").data] ++ ' ' :: stdTail) =
      Except.ok stdGame ∧
    (∃ x8 x7 x6 x5 x4 x3 x2 x1 : List Piece × List Square,
      specParseRow (("rnbqkbnr").data) 0 56 = Except.ok x8 ∧
      specParseRow (("pppppppp").data) x8.1.length 48 = Except.ok x7 ∧
      specParseRow (("8").data) (x8.1.length + x7.1.length) 40 = Except.ok x6 ∧
      specParseRow (("8").data) (x8.1.length + x7.1.length + x6.1.length) 32 =
        Except.ok x5 ∧
      specParseRow (("8").data)
        (x8.1.length + x7.1.length + x6.1.length + x5.1.length) 24 = Except.ok x4 ∧
      specParseRow (("8").data)
        (x8.1.length + x7.1.length + x6.1.length + x5.1.length + x4.1.length) 16 =
        Except.ok x3 ∧
      specParseRow (("PPPPPPPP").data)
        (x8.1.length + x7.1.length + x6.1.length + x5.1.length + x4.1.length +
          x3.1.length) 8 = Except.ok x2 ∧
      specParseRow (("RNBQKBNR").data)
        (x8.1.length + x7.1.length + x6.1.length + x5.1.length + x4.1.length +
          x3.1.length + x2.1.length) 0 = Except.ok x1 ∧
      stdGame.pieces = x8.1 ++ x7.1 ++ x6.1 ++ x5.1 ++ x4.1 ++ x3.1 ++ x2.1 ++ x1.1 ∧
      stdGame.squares = x1.2 ++ x2.2 ++ x3.2 ++ x4.2 ++ x5.2 ++ x6.2 ++ x7.2 ++ x8.2) :=
  ⟨by decide, by decide,
    C4_squares_order _ _ _ _ _ _ _ _ stdTail stdGame (by decide) (by decide)⟩

/-- **C5 counterexample**: the one-character string `"è"` (UTF-8 bytes
`[195, 168]`) does not have exactly two characters, yet `position_to_bit`
returns an invalid-*column* error (kind 2), not the invalid-length error
(kind 1) the claim requires: the source checks `position.len()`, the UTF-8
*byte* length, which here is 2. -/
theorem C5_counterexample :
    (['è'] : List Char).length = 1 ∧
    ptbErrKind (position_to_bit ['è']) = 2 ∧
    ¬ ptbErrKind (position_to_bit ['è']) = 1 := by
  decide

/-- **C5 amended**: with "characters" read as UTF-8 bytes, the claim holds
exactly: for every input string, `position_to_bit` fails with InvalidLength
unless the byte length is exactly 2, then with InvalidColumn unless the
first byte is `a`..`h`, then with InvalidRow unless the second byte is a
digit `1`..`8`, and otherwise returns `Ok (1 << ((row-1)*8 + column))` — and
it fails in exactly these cases (`positionToBitByteSpec` is total in this
case analysis). -/
theorem C5_amended_byte_characterization :
    ∀ s : List Char, position_to_bit s = positionToBitByteSpec s := by
  intro s
  unfold position_to_bit positionToBitByteSpec
  cases hbs : strBytes s with
  | nil => simp
  | cons b0 t =>
    cases t with
    | nil => simp
    | cons b1 t2 =>
      cases t2 with
      | cons b2 t3 => simp
      | nil =>
        have hl : (b0 :: b1 :: ([] : List Nat)).length = 2 := rfl
        rw [if_pos hl]
        have hg0 : ([b0, b1] : List Nat).getD 0 0 = b0 := rfl
        have hg1 : ([b0, b1] : List Nat).getD 1 0 = b1 := rfl
        rw [hg0, hg1]
        dsimp only
        by_cases hcol : 97 ≤ b0 ∧ b0 ≤ 104
        · have hc1 : (decide (b0 < 97) || decide (97 + 8 ≤ b0)) = false := by
            simp only [Bool.or_eq_false_iff, decide_eq_false_iff_not]
            omega
          rw [hc1, if_pos hcol]
          simp only [Bool.false_eq_true, if_false]
          by_cases hrow : 49 ≤ b1 ∧ b1 ≤ 56
          · have hd : byteToDigit10 b1 = some (b1 - 48) := by
              unfold byteToDigit10
              rw [if_pos]
              simp only [Bool.and_eq_true, decide_eq_true_eq]
              omega
            rw [hd, if_pos hrow]
            dsimp only
            have hr1 : (decide (b1 - 48 < 1) || decide (8 < b1 - 48)) = false := by
              simp only [Bool.or_eq_false_iff, decide_eq_false_iff_not]
              omega
            rw [hr1]
            simp only [Bool.false_eq_true, if_false]
            have harith : b1 - 48 - 1 = b1 - 49 := by omega
            rw [harith]
          · rw [if_neg hrow]
            cases hd : byteToDigit10 b1 with
            | none => rfl
            | some n =>
              dsimp only
              have hn : 48 ≤ b1 ∧ b1 ≤ 57 ∧ n = b1 - 48 := by
                unfold byteToDigit10 at hd
                by_cases hb : (48 ≤ b1 && b1 ≤ 57) = true
                · simp only [hb, if_true] at hd
                  simp only [Bool.and_eq_true, decide_eq_true_eq] at hb
                  exact ⟨hb.1, hb.2, (Option.some.inj hd).symm⟩
                · simp [hb] at hd
              have hr1 : (decide (n < 1) || decide (8 < n)) = true := by
                simp only [Bool.or_eq_true, decide_eq_true_eq]
                omega
              rw [hr1]
              simp
        · have hc1 : (decide (b0 < 97) || decide (97 + 8 ≤ b0)) = true := by
            simp only [Bool.or_eq_true, decide_eq_true_eq]
            omega
          rw [hc1, if_neg hcol]
          simp

/-- **C7 counterexample**: the FEN `"8/8/8/8/8/8/8/8 w - - 0 0"`, whose
fullmove field is `"0"`, decodes successfully to a game with
`fullmove_number = 0` — the claim's "must not yield a Game with
fullmove_number = 0" fails on the code, which accepts any `usize`. -/
theorem C7_counterexample :
    read_FEN (("8/8/8/8/8/8/8/8 w - - 0 0").data) =
      Except.ok (gameOr (read_FEN (("8/8/8/8/8/8/8/8 w - - 0 0").data))) ∧
    (gameOr (read_FEN (("8/8/8/8/8/8/8/8 w - - 0 0").data))).fullmove_number = 0 := by
  decide

/-- **C7 amended**: the fullmove field is parsed as a *non-negative*
integer: a non-numeric fullmove field panics (the InvalidFullmove site), and
a numeric field yields exactly its parsed value as `fullmove_number`, with
no `≥ 1` check — in particular `"0"` is accepted and yields 0. -/
theorem C7_amended_fullmove (fm : List Char) (hfm : (' ' : Char) ∉ fm) :
    read_FEN (("8/8/8/8/8/8/8/8").data ++ ' ' ::
        (['w'] ++ ' ' :: (['-'] ++ ' ' :: (['-'] ++ ' ' :: (['0'] ++ ' ' :: fm))))) =
      (match parseUsize fm with
       | none => Except.error (Panic.invalidFullmove fm)
       | some n => Except.ok ⟨[], List.replicate 64 Square.Empty, Color.White, CASTLE_NONE,
           none, 0, n⟩) := by
  rw [read_FEN_tokens _ _ _ _ _ _ (by decide) (by decide) (by decide) (by decide)
    (by decide) hfm]
  have h1 : readFENRows (splitn 8 '/' (("8/8/8/8/8/8/8/8").data)) 0 64 [] [] =
      Except.ok ([], List.replicate 64 Square.Empty) := by decide
  have h2 : parseColor ['w'] = Except.ok Color.White := by decide
  have h3 : parseCastlingChars ['-'] 0 = Except.ok 0 := by decide
  have h4 : parseEnPassant ['-'] = Except.ok none := by decide
  have h5 : parseHalfmove ['0'] = Except.ok 0 := by decide
  rw [h1, h2, h3, h4, h5]
  simp only [Except.bind]
  unfold parseFullmove
  cases parseUsize fm with
  | none => rfl
  | some n => rfl

/-- Witness for C7's amended claim: the fullmove field `"0"` is
space-free, and decoding with it succeeds with `fullmove_number = 0`. -/
theorem C7_witness :
    ((' ' : Char) ∉ (['0'] : List Char)) ∧
    read_FEN (("8/8/8/8/8/8/8/8").data ++ ' ' ::
        (['w'] ++ ' ' :: (['-'] ++ ' ' :: (['-'] ++ ' ' :: (['0'] ++ ' ' :: ['0']))))) =
      Except.ok ⟨[], List.replicate 64 Square.Empty, Color.White, CASTLE_NONE, none, 0, 0⟩ :=
  ⟨by decide, C7_amended_fullmove ['0'] (by decide)⟩

/-- **C8 counterexample**: on the malformed active-color token `"x"`,
`read_FEN` does not return a recoverable error value — it hits the
`panic!("Unknown color designator: …")`, a program-terminating fault,
modelled as the `Panic`-carrying `error` branch. -/
theorem C8_counterexample :
    read_FEN (("8/8/8/8/8/8/8/8 x KQkq - 0 1").data) =
      Except.error (Panic.unknownColor ['x']) := by
  decide

theorem parseCastlingChars_invalid : ∀ (l : List Char) (acc : Nat),
    ¬ (∀ c ∈ l, c ∈ castleAlphabet) →
    ∃ c, c ∈ l ∧ c ∉ castleAlphabet ∧
      parseCastlingChars l acc = Except.error (Panic.invalidCastlingChar c)
  | [], _, h => absurd (by intro c hc; simp at hc) h
  | ch :: rest, acc, h => by
    by_cases hch : ch ∈ castleAlphabet
    · have hrest : ¬ (∀ c ∈ rest, c ∈ castleAlphabet) := by
        intro hall
        refine h (fun c hc => ?_)
        rcases List.mem_cons.mp hc with rfl | hm
        · exact hch
        · exact hall c hm
      fin_cases hch
      · obtain ⟨c, hm, hi, hp⟩ := parseCastlingChars_invalid rest (acc ||| WHITEKINGSIDE) hrest
        exact ⟨c, List.mem_cons_of_mem _ hm, hi, by simp [parseCastlingChars, hp]⟩
      · obtain ⟨c, hm, hi, hp⟩ := parseCastlingChars_invalid rest (acc ||| WHITEQUEENSIDE) hrest
        exact ⟨c, List.mem_cons_of_mem _ hm, hi, by simp [parseCastlingChars, hp]⟩
      · obtain ⟨c, hm, hi, hp⟩ := parseCastlingChars_invalid rest (acc ||| BLACKKINGSIDE) hrest
        exact ⟨c, List.mem_cons_of_mem _ hm, hi, by simp [parseCastlingChars, hp]⟩
      · obtain ⟨c, hm, hi, hp⟩ := parseCastlingChars_invalid rest (acc ||| BLACKQUEENSIDE) hrest
        exact ⟨c, List.mem_cons_of_mem _ hm, hi, by simp [parseCastlingChars, hp]⟩
      · obtain ⟨c, hm, hi, hp⟩ := parseCastlingChars_invalid rest acc hrest
        exact ⟨c, List.mem_cons_of_mem _ hm, hi, by simp [parseCastlingChars, hp]⟩
    · have hlit : ch ≠ 'K' ∧ ch ≠ 'Q' ∧ ch ≠ 'k' ∧ ch ≠ 'q' ∧ ch ≠ '-' := by
        simp only [castleAlphabet, List.mem_cons, List.not_mem_nil, or_false, not_or] at hch
        exact hch
      exact ⟨ch, List.mem_cons_self _ _, hch,
        by simp [parseCastlingChars, hlit.1, hlit.2.1, hlit.2.2.1, hlit.2.2.2.1,
          hlit.2.2.2.2]⟩

/-- **C8 amended**: every malformed field aborts `read_FEN` at the
corresponding `panic!` site (carrying the offending data), and no `Game` is
produced on that input; the panic is a program-terminating fault, not a
recoverable error value.  One universal statement per failure category of
the claim, each quantifying over every malformed value of its field (the
other fields held valid): every active-color token other than `"w"`/`"b"`,
every castling field containing a character outside `{K, Q, k, q, -}`
(the panic carries such a character of the field), every non-`"-"`
en-passant field rejected by `position_to_bit` (the panic carries its
error), and every non-numeric halfmove or fullmove field. -/
theorem C8_amended_panics :
    (∀ tok : List Char, (' ' : Char) ∉ tok → tok ≠ ['w'] → tok ≠ ['b'] →
      read_FEN (("8/8/8/8/8/8/8/8").data ++ ' ' ::
          (tok ++ ' ' :: (("KQkq").data ++ ' ' :: (['-'] ++ ' ' :: (['0'] ++ ' ' :: ['1']))))) =
        Except.error (Panic.unknownColor tok)) ∧
    (∀ cas : List Char, (' ' : Char) ∉ cas → ¬ (∀ c ∈ cas, c ∈ castleAlphabet) →
      ∃ c, c ∈ cas ∧ c ∉ castleAlphabet ∧
        read_FEN (("8/8/8/8/8/8/8/8").data ++ ' ' ::
            (['w'] ++ ' ' :: (cas ++ ' ' :: (['-'] ++ ' ' :: (['0'] ++ ' ' :: ['1']))))) =
          Except.error (Panic.invalidCastlingChar c)) ∧
    (∀ (ep : List Char) (e : PtbError), (' ' : Char) ∉ ep → ep ≠ ['-'] →
      position_to_bit ep = Except.error e →
      read_FEN (("8/8/8/8/8/8/8/8").data ++ ' ' ::
          (['w'] ++ ' ' :: (("KQkq").data ++ ' ' :: (ep ++ ' ' :: (['0'] ++ ' ' :: ['1']))))) =
        Except.error (Panic.enPassantInvalid e)) ∧
    (∀ hm : List Char, (' ' : Char) ∉ hm → parseUsize hm = none →
      read_FEN (("8/8/8/8/8/8/8/8").data ++ ' ' ::
          (['w'] ++ ' ' :: (("KQkq").data ++ ' ' :: (['-'] ++ ' ' :: (hm ++ ' ' :: ['1']))))) =
        Except.error (Panic.invalidHalfmove hm)) ∧
    (∀ fm : List Char, (' ' : Char) ∉ fm → parseUsize fm = none →
      read_FEN (("8/8/8/8/8/8/8/8").data ++ ' ' ::
          (['w'] ++ ' ' :: (("KQkq").data ++ ' ' :: (['-'] ++ ' ' :: (['0'] ++ ' ' :: fm))))) =
        Except.error (Panic.invalidFullmove fm)) := by
  have hpl : readFENRows (splitn 8 '/' (("8/8/8/8/8/8/8/8").data)) 0 64 [] [] =
      Except.ok ([], List.replicate 64 Square.Empty) := by decide
  have hw : parseColor ['w'] = Except.ok Color.White := by decide
  have hcas : parseCastlingChars (("KQkq").data) 0 = Except.ok 15 := by decide
  have hdash : parseEnPassant ['-'] = Except.ok none := by decide
  have h0 : parseHalfmove ['0'] = Except.ok 0 := by decide
  refine ⟨?_, ?_, ?_, ?_, ?_⟩
  · intro tok hsp hnw hnb
    rw [read_FEN_tokens _ _ _ _ _ _ (by decide) hsp (by decide) (by decide) (by decide)
      (by decide), hpl]
    simp only [Except.bind]
    have hcol : parseColor tok = Except.error (Panic.unknownColor tok) := by
      unfold parseColor
      rw [if_neg hnw, if_neg hnb]
    rw [hcol]
  · intro cas hsp hinv
    obtain ⟨c, hm, hi, hpcc⟩ := parseCastlingChars_invalid cas 0 hinv
    refine ⟨c, hm, hi, ?_⟩
    rw [read_FEN_tokens _ _ _ _ _ _ (by decide) (by decide) hsp (by decide) (by decide)
      (by decide), hpl]
    simp only [Except.bind]
    rw [hw]
    simp only [Except.bind]
    rw [hpcc]
  · intro ep e hsp hnd hptb
    rw [read_FEN_tokens _ _ _ _ _ _ (by decide) (by decide) (by decide) hsp (by decide)
      (by decide), hpl]
    simp only [Except.bind]
    rw [hw]
    simp only [Except.bind]
    rw [hcas]
    simp only [Except.bind]
    have hep : parseEnPassant ep = Except.error (Panic.enPassantInvalid e) := by
      unfold parseEnPassant
      rw [if_neg hnd, hptb]
    rw [hep]
  · intro hm hsp hpu
    rw [read_FEN_tokens _ _ _ _ _ _ (by decide) (by decide) (by decide) (by decide) hsp
      (by decide), hpl]
    simp only [Except.bind]
    rw [hw]
    simp only [Except.bind]
    rw [hcas]
    simp only [Except.bind]
    rw [hdash]
    simp only [Except.bind]
    have hh : parseHalfmove hm = Except.error (Panic.invalidHalfmove hm) := by
      unfold parseHalfmove
      rw [hpu]
    rw [hh]
  · intro fm hsp hpu
    rw [read_FEN_tokens _ _ _ _ _ _ (by decide) (by decide) (by decide) (by decide)
      (by decide) hsp, hpl]
    simp only [Except.bind]
    rw [hw]
    simp only [Except.bind]
    rw [hcas]
    simp only [Except.bind]
    rw [hdash]
    simp only [Except.bind]
    rw [h0]
    simp only [Except.bind]
    have hf : parseFullmove fm = Except.error (Panic.invalidFullmove fm) := by
      unfold parseFullmove
      rw [hpu]
    rw [hf]

/-- Witness for C8's amended claim: each of the five universal parts is
instantiated at a concrete malformed field — color token `"x"`, castling
field `"Z"`, en-passant field `"i9"`, halfmove field `"x"`, fullmove field
`"x"` — discharging every hypothesis. -/
theorem C8_witness :
    read_FEN (("8/8/8/8/8/8/8/8").data ++ ' ' ::
        (['x'] ++ ' ' :: (("KQkq").data ++ ' ' :: (['-'] ++ ' ' :: (['0'] ++ ' ' :: ['1']))))) =
      Except.error (Panic.unknownColor ['x']) ∧
    (∃ c, c ∈ (['Z'] : List Char) ∧ c ∉ castleAlphabet ∧
      read_FEN (("8/8/8/8/8/8/8/8").data ++ ' ' ::
          (['w'] ++ ' ' :: (['Z'] ++ ' ' :: (['-'] ++ ' ' :: (['0'] ++ ' ' :: ['1']))))) =
        Except.error (Panic.invalidCastlingChar c)) ∧
    read_FEN (("8/8/8/8/8/8/8/8").data ++ ' ' ::
        (['w'] ++ ' ' :: (("KQkq").data ++ ' ' ::
          ((("i9").data) ++ ' ' :: (['0'] ++ ' ' :: ['1']))))) =
      Except.error (Panic.enPassantInvalid (PtbError.invalidColumn 105 (("i9").data))) ∧
    read_FEN (("8/8/8/8/8/8/8/8").data ++ ' ' ::
        (['w'] ++ ' ' :: (("KQkq").data ++ ' ' :: (['-'] ++ ' ' :: (['x'] ++ ' ' :: ['1']))))) =
      Except.error (Panic.invalidHalfmove ['x']) ∧
    read_FEN (("8/8/8/8/8/8/8/8").data ++ ' ' ::
        (['w'] ++ ' ' :: (("KQkq").data ++ ' ' :: (['-'] ++ ' ' :: (['0'] ++ ' ' :: ['x']))))) =
      Except.error (Panic.invalidFullmove ['x']) :=
  ⟨C8_amended_panics.1 ['x'] (by decide) (by decide) (by decide),
   C8_amended_panics.2.1 ['Z'] (by decide) (by decide),
   C8_amended_panics.2.2.1 (("i9").data) (PtbError.invalidColumn 105 (("i9").data))
     (by decide) (by decide) (by decide),
   C8_amended_panics.2.2.2.1 ['x'] (by decide) (by decide),
   C8_amended_panics.2.2.2.2 ['x'] (by decide) (by decide)⟩

end Chess
